import Mathlib

/-!
# Verification of the ccmcp identifier-resolution and state-transition core

Shallow embedding of the MCP-server switcher (`src/ccmcp.js`,
`src/lib/matcher.js`, `src/lib/schema.js`): schema detection, item
normalisation, identifier matching with edit-distance suggestions, and the
enable/disable transition engine, together with proofs about the behaviour
claimed in the specification.

JSON values are modelled by an inductive `Json`; a JS object is an
association list of fields in insertion order (`JSON.parse` never produces
duplicate keys).  Documents are modelled by `Config`: the two container
fields the tool reads and writes (`mcpServers`, `mcpServersDisabled`) plus
the untouched remainder of the top level.  In-place mutation through an
item's entry reference is modelled by updating the document at the item's
recorded address (container tag plus key or index), which coincides with
the JS aliasing behaviour whenever the item was produced by enumerating
the current document.  The display-only `command`/`transport` strings of
an item are not modelled; no claim concerns them.
-/

namespace Ccmcp

/-- A JSON-like value as manipulated by the Node implementation.
Numbers are restricted to integers; no claim involves fractional values. -/
inductive Json where
  | null : Json
  | bool (b : Bool) : Json
  | num (n : Int) : Json
  | str (s : String) : Json
  | arr (elems : List Json) : Json
  | obj (fields : List (String × Json)) : Json

mutual

/-- Structural equality of JSON values.  It stands in for JS reference
equality in `Array.prototype.indexOf`: distinct live references hold
structurally distinct positions in a freshly parsed document. -/
def Json.beq : Json → Json → Bool
  | .null, .null => true
  | .bool a, .bool b => a == b
  | .num a, .num b => a == b
  | .str a, .str b => a == b
  | .arr xs, .arr ys => Json.beqList xs ys
  | .obj xs, .obj ys => Json.beqFields xs ys
  | _, _ => false
termination_by structural x => x

/-- Elementwise equality of JSON arrays. -/
def Json.beqList : List Json → List Json → Bool
  | [], [] => true
  | x :: xs, y :: ys => Json.beq x y && Json.beqList xs ys
  | _, _ => false
termination_by structural x => x

/-- Fieldwise equality of JSON objects (field order included, as produced
by the parser). -/
def Json.beqFields : List (String × Json) → List (String × Json) → Bool
  | [], [] => true
  | (k, x) :: xs, (l, y) :: ys => k == l && Json.beq x y && Json.beqFields xs ys
  | _, _ => false
termination_by structural x => x

end

instance : BEq Json := ⟨Json.beq⟩

/-- JS truthiness: `null`, `false`, `0` and `""` are falsy; every object or
array is truthy. -/
def truthy : Json → Bool
  | .null => false
  | .bool b => b
  | .num n => n != 0
  | .str s => s != ""
  | .arr _ => true
  | .obj _ => true

/-- Field lookup in a JS object, first match (object keys are unique). -/
def objLookup (l : List (String × Json)) (k : String) : Option Json :=
  match l with
  | [] => none
  | (k0, v) :: rest => if k0 = k then some v else objLookup rest k

/-- Property read `v.f`: first field of that name when `v` is an object,
otherwise no value (JS yields `undefined`). -/
def getField (v : Json) (f : String) : Option Json :=
  match v with
  | .obj l => objLookup l f
  | _ => none

/-- Models `Object.prototype.hasOwnProperty.call(v, f)`. -/
def hasField (v : Json) (f : String) : Bool :=
  (getField v f).isSome

mutual

/-- JS `String(v)` for a JSON value: arrays join their elements with commas
(`null` elements print as the empty string), objects print as
`"[object Object]"`. -/
def jsToString : Json → String
  | .null => "null"
  | .bool b => if b then "true" else "false"
  | .num n => toString n
  | .str s => s
  | .arr xs => jsArrToString xs
  | .obj _ => "[object Object]"

/-- Models `Array.prototype.toString`: comma-joined element strings. -/
def jsArrToString : List Json → String
  | [] => ""
  | [x] => jsElemToString x
  | x :: y :: xs => jsElemToString x ++ "," ++ jsArrToString (y :: xs)
termination_by structural x => x

/-- One array element inside `Array.prototype.toString`: `null` prints as
the empty string, every other value as `String(v)`. -/
def jsElemToString : Json → String
  | .null => ""
  | .bool b => if b then "true" else "false"
  | .num n => toString n
  | .str s => s
  | .arr xs => jsArrToString xs
  | .obj _ => "[object Object]"
termination_by structural x => x

end

/-- Models `safeStr(x)` over an optional field value: the empty string for an
absent (`undefined`) or `null` value, otherwise `String(x)`. -/
def safeStr : Option Json → String
  | none => ""
  | some .null => ""
  | some v => jsToString v

/-- Models the entry default (`v` if truthy, else a fresh empty object)
applied by the enumerator: a falsy entry is replaced
by an empty object. -/
def orEmptyObj (v : Json) : Json :=
  if truthy v then v else .obj []

/-- Assignment `o[k] = v` on a JS object: overwrite the existing field in
place, or append a new field in insertion order. -/
def objSet (l : List (String × Json)) (k : String) (v : Json) :
    List (String × Json) :=
  match l with
  | [] => [(k, v)]
  | (k0, v0) :: rest =>
      if k0 = k then (k0, v) :: rest else (k0, v0) :: objSet rest k v

/-- Models `delete o[k]` on a JS object (object keys are unique, so removing every
field of that name is the same as removing the property). -/
def objDelete (l : List (String × Json)) (k : String) :
    List (String × Json) :=
  match l with
  | [] => []
  | (k0, v) :: rest =>
      if k0 = k then objDelete rest k else (k0, v) :: objDelete rest k

/-- Overwrite the field `k` when it exists; leave the object alone when it
does not.  This models an in-place write through a retained entry
reference: the write lands in the document exactly when the document still
holds that entry at the recorded key. -/
def objSetIfPresent (l : List (String × Json)) (k : String) (v : Json) :
    List (String × Json) :=
  if (objLookup l k).isSome then objSet l k v else l

/-- Overwrite index `i` when it is in bounds; leave the array alone when it
is not.  Array analogue of `objSetIfPresent`. -/
def arrSetIfPresent (l : List Json) (i : Nat) (v : Json) : List Json :=
  if i < l.length then l.set i v else l

/-- Models `Array.prototype.indexOf` under the structural model of reference
equality: index of the first equal element, `none` when absent. -/
def arrIndexOf (l : List Json) (v : Json) : Option Nat :=
  match l with
  | [] => none
  | x :: xs =>
      if Json.beq x v then some 0 else (arrIndexOf xs v).map (· + 1)

/-- Models `Array.prototype.splice(i, 1)`. -/
def arrRemoveAt (l : List Json) (i : Nat) : List Json :=
  l.eraseIdx i

/-- Which JSON shape the entry collection uses: `object` is the keyed map
(`Keyed` in the specification), `array` the ordered list (`Indexed`). -/
inductive Shape where
  | object : Shape
  | array : Shape
  deriving DecidableEq

/-- Which top-level container an item currently lives in. -/
inductive Container where
  | active : Container
  | disabled : Container
  deriving DecidableEq

/-- Derived display status of an item. -/
inductive Status where
  | enabled : Status
  | disabled : Status
  deriving DecidableEq

/-- Result of `detectSchema`: the collection shape and the document-wide
enabled-marker flag. -/
structure Schema where
  shape : Shape
  hasEnabled : Bool
  deriving DecidableEq

/-- The parsed configuration document: the two container fields the tool
touches, plus the untouched remainder of the top level. -/
structure Config where
  mcpServers : Option Json
  mcpServersDisabled : Option Json
  extra : List (String × Json)

/-- The normalised view of one entry (`packItem`'s result).  The
display-only `command`/`transport` strings are not modelled. -/
structure Item where
  key : Option String
  id : Option String
  name : Option String
  defn : Json
  container : Container
  status : Status
  shape : Shape
  index : Option Nat

/-- Fields of a container expected to be an object; anything else reads as
empty. -/
def objEntries : Option Json → List (String × Json)
  | some (.obj l) => l
  | _ => []

/-- Elements of a container expected to be an array; anything else reads as
empty. -/
def arrEntries : Option Json → List Json
  | some (.arr l) => l
  | _ => []

/-- Set one field of an entry (`def[f] = w`); a no-op on non-object values,
where the source never performs such a write. -/
def setFieldJson (v : Json) (f : String) (w : Json) : Json :=
  match v with
  | .obj l => .obj (objSet l f w)
  | other => other

/-- Embeds `detectSchema(cfg)`: absent or falsy `mcpServers` defaults to the
object shape without a marker; an array or object is scanned for any
truthy element/value owning an `enabled` field; any other (necessarily
truthy scalar) value is an unsupported schema. -/
def detectSchema (cfg : Config) : Except String Schema :=
  match cfg.mcpServers with
  | none => .ok ⟨.object, false⟩
  | some ms =>
      if truthy ms = false then .ok ⟨.object, false⟩
      else
        match ms with
        | .arr xs =>
            .ok ⟨.array, xs.any fun it => truthy it && hasField it "enabled"⟩
        | .obj l =>
            .ok ⟨.object, l.any fun p => truthy p.2 && hasField p.2 "enabled"⟩
        | _ => .error "Unsupported mcpServers schema: must be object or array"

/-- Embeds `packItem`: normalise one entry into an `Item`.  `id`/`name` go through
`safeStr` and then `x || undefined`, so an empty coercion leaves the field
absent; the status derives from the container and the truthiness of a
declared `enabled` field. -/
def packItem (defn : Json) (container : Container) (shape : Shape)
    (key : Option String) (index : Option Nat) : Item :=
  let id := safeStr (getField defn "id")
  let name := safeStr (getField defn "name")
  let enabledProp : Option Bool :=
    if hasField defn "enabled" then
      some (truthy ((getField defn "enabled").getD .null))
    else none
  let status :=
    if container = .disabled then Status.disabled
    else if enabledProp = some false then Status.disabled
    else Status.enabled
  { key := key
    id := if id = "" then none else some id
    name := if name = "" then none else some name
    defn := defn
    container := container
    status := status
    shape := shape
    index := index }

/-- Embeds `enumerateServers(cfg)`: active container first, then the disabled
container; a disabled container of the other shape is treated as empty. -/
def enumerateServers (cfg : Config) : List Item :=
  match cfg.mcpServers with
  | some (.arr ms) =>
      (ms.enum.map fun p =>
        packItem (orEmptyObj p.2) .active .array none (some p.1))
        ++
        (match cfg.mcpServersDisabled with
          | some (.arr md) =>
              md.enum.map fun p =>
                packItem (orEmptyObj p.2) .disabled .array none (some p.1)
          | _ => [])
  | other =>
      let activeObj : List (String × Json) :=
        match other with
        | some (.obj l) => l
        | _ => []
      let disabledObj : List (String × Json) :=
        match cfg.mcpServersDisabled with
        | some (.obj l) => l
        | _ => []
      (activeObj.map fun p =>
        packItem (orEmptyObj p.2) .active .object (some p.1) none)
        ++
        (disabledObj.map fun p =>
          packItem (orEmptyObj p.2) .disabled .object (some p.1) none)

/-- Embeds `ensureContainers(cfg, shape)`: keep each container when it already has
the requested shape, otherwise replace it (or create it) as an empty
collection of that shape. -/
def ensureContainers (cfg : Config) (shape : Shape) : Config :=
  match shape with
  | .object =>
      { cfg with
        mcpServers :=
          match cfg.mcpServers with
          | some (.obj l) => some (.obj l)
          | _ => some (.obj [])
        mcpServersDisabled :=
          match cfg.mcpServersDisabled with
          | some (.obj l) => some (.obj l)
          | _ => some (.obj []) }
  | .array =>
      { cfg with
        mcpServers :=
          match cfg.mcpServers with
          | some (.arr l) => some (.arr l)
          | _ => some (.arr [])
        mcpServersDisabled :=
          match cfg.mcpServersDisabled with
          | some (.arr l) => some (.arr l)
          | _ => some (.arr []) }

/-- The object key used for an item (`cfg.mcpServers[item.key]`); JS
coerces a missing key to the property name `"undefined"`. -/
def keyOfItem (item : Item) : String :=
  item.key.getD "undefined"

/-- JS `a || b` on two optional strings (the empty string is falsy). -/
def jsOr (a b : Option String) : Option String :=
  match a with
  | some s => if s = "" then b else some s
  | none => b

/-- String interpolation of a possibly `undefined` value. -/
def interp (o : Option String) : String :=
  o.getD "undefined"

/-- Models `item.key || item.id || item.name` as interpolated into the "kept"
change message. -/
def keptLabel (item : Item) : String :=
  interp (jsOr (jsOr item.key item.id) item.name)

/-- Write an entry through its retained reference, addressed by container
tag and object key: the write lands iff the key is still present there. -/
def writeEntryObj (cfg : Config) (c : Container) (k : String) (v : Json) :
    Config :=
  match c with
  | .active =>
      { cfg with
        mcpServers := some (.obj (objSetIfPresent (objEntries cfg.mcpServers) k v)) }
  | .disabled =>
      { cfg with
        mcpServersDisabled :=
          some (.obj (objSetIfPresent (objEntries cfg.mcpServersDisabled) k v)) }

/-- Write an entry through its retained reference, addressed by container
tag and array index: the write lands iff the index is still in bounds. -/
def writeEntryArr (cfg : Config) (c : Container) (i : Option Nat) (v : Json) :
    Config :=
  match i with
  | none => cfg
  | some i =>
      match c with
      | .active =>
          { cfg with
            mcpServers := some (.arr (arrSetIfPresent (arrEntries cfg.mcpServers) i v)) }
      | .disabled =>
          { cfg with
            mcpServersDisabled :=
              some (.arr (arrSetIfPresent (arrEntries cfg.mcpServersDisabled) i v)) }

/-- Does this entry carry `enabled === false`?  (Strict equality: only the
boolean `false` qualifies.) -/
def enabledIsFalse (defn : Json) : Bool :=
  getField defn "enabled" == some (Json.bool false)

/-- Embeds `performEnable(cfg, item, schema)`: returns the mutated document and
the ordered change descriptions. -/
def performEnable (cfg : Config) (item : Item) (schema : Schema) :
    Config × List String :=
  if schema.shape = .object then
    let cfg1 := ensureContainers cfg .object
    let k := keyOfItem item
    let moveStep : Config × List String :=
      if item.container = .disabled then
        ({ cfg1 with
            mcpServers := some (.obj (objSet (objEntries cfg1.mcpServers) k item.defn))
            mcpServersDisabled :=
              some (.obj (objDelete (objEntries cfg1.mcpServersDisabled) k)) },
          ["moved " ++ k ++ " from mcpServersDisabled to mcpServers"])
      else
        (cfg1, ["kept " ++ keptLabel item ++ " in mcpServers"])
    let cfg2 := moveStep.1
    if hasField item.defn "enabled" && enabledIsFalse item.defn then
      -- `item.def.enabled = true`: after a move the reference lives under
      -- `mcpServers[k]`; for an active item it lives there as well.
      (writeEntryObj cfg2 .active k (setFieldJson item.defn "enabled" (.bool true)),
        moveStep.2 ++ ["set enabled=true"])
    else
      (cfg2, moveStep.2)
  else
    let cfg1 := ensureContainers cfg .array
    let ms := arrEntries cfg1.mcpServers
    let md := arrEntries cfg1.mcpServersDisabled
    let foundIdx : Option Nat :=
      if item.container = .disabled then arrIndexOf md item.defn else none
    let moveStep : Config × List String :=
      match item.container, foundIdx with
      | .disabled, some idx =>
          ({ cfg1 with
              mcpServers := some (.arr (ms ++ [item.defn]))
              mcpServersDisabled := some (.arr (arrRemoveAt md idx)) },
            ["moved entry from mcpServersDisabled[] to mcpServers[]"])
      | .disabled, none => (cfg1, [])
      | .active, _ => (cfg1, ["kept entry in mcpServers[]"])
    let cfg2 := moveStep.1
    if hasField item.defn "enabled" && enabledIsFalse item.defn then
      -- `item.def.enabled = true` through the reference: a moved entry now
      -- sits at the end of `mcpServers`, an active entry at its index; a
      -- reference no longer reachable from the document changes nothing.
      let newDef := setFieldJson item.defn "enabled" (.bool true)
      let cfg3 :=
        match item.container, foundIdx with
        | .disabled, some _ =>
            writeEntryArr cfg2 .active (some ((arrEntries cfg2.mcpServers).length - 1)) newDef
        | .disabled, none => cfg2
        | .active, _ => writeEntryArr cfg2 .active item.index newDef
      (cfg3, moveStep.2 ++ ["set enabled=true"])
    else
      (cfg2, moveStep.2)

/-- The error message raised by `performDisable` on an array-shaped
collection whose entry lacks its own `enabled` field. -/
def unsupportedDisableMsg : String :=
  "Disable on array-shaped mcpServers without an \"enabled\" field is unsupported."

/-- Embeds `performDisable(cfg, item, schema)`: returns the (possibly mutated)
document and either the ordered change descriptions or the
unsupported-transition error.  The document is returned even on the error
path because `ensureContainers` has already run by the time the error is
raised. -/
def performDisable (cfg : Config) (item : Item) (schema : Schema) :
    Config × Except String (List String) :=
  if schema.shape = .object then
    let cfg1 := ensureContainers cfg .object
    let k := keyOfItem item
    if hasField item.defn "enabled" then
      -- Toggle the marker and stop: containers are never moved when an
      -- explicit `enabled` flag exists.
      if enabledIsFalse item.defn then
        (cfg1, .ok ["already enabled=false"])
      else
        (writeEntryObj cfg1 item.container k (setFieldJson item.defn "enabled" (.bool false)),
          .ok ["set enabled=false"])
    else
      if item.container = .active then
        ({ cfg1 with
            mcpServersDisabled :=
              some (.obj (objSet (objEntries cfg1.mcpServersDisabled) k item.defn))
            mcpServers := some (.obj (objDelete (objEntries cfg1.mcpServers) k)) },
          .ok ["moved " ++ k ++ " from mcpServers to mcpServersDisabled"])
      else
        (cfg1, .ok ["already in mcpServersDisabled under key " ++ k])
  else
    let cfg1 := ensureContainers cfg .array
    if !hasField item.defn "enabled" then
      (cfg1, .error unsupportedDisableMsg)
    else
      if enabledIsFalse item.defn then
        (cfg1, .ok ["already enabled=false"])
      else
        (writeEntryArr cfg1 item.container item.index
            (setFieldJson item.defn "enabled" (.bool false)),
          .ok ["set enabled=false"])

/-- JS `String.prototype.toLowerCase`, modelled characterwise (all strings
involved are ASCII, where the two agree). -/
def jsToLower (s : String) : String :=
  ⟨s.data.map Char.toLower⟩

/-- Inner loop of one row of the Levenshtein table (`for j = 1..n`): given
the current character `ai = a[i]`, the remaining characters of `b`, the
diagonal value `dp[i][j-1]`, the value to the left `dp[i+1][j-1]`, and the
remainder of the previous row `dp[i][j..]`, produce `dp[i+1][j..]`. -/
def levRowGo (ai : Char) : List Char → Nat → Nat → List Nat → List Nat
  | [], _, _, _ => []
  | _ :: _, _, _, [] => []
  | bj :: bs, diag, left, up :: rest =>
      let cost := if ai = bj then 0 else 1
      let cur := min (up + 1) (min (left + 1) (diag + cost))
      cur :: levRowGo ai bs up cur rest

/-- One outer-loop iteration (`for i`): from row `dp[i]` to row `dp[i+1]`,
whose first cell is `dp[i+1][0] = i+1`. -/
def levRow (ai : Char) (b : List Char) (i1 : Nat) (prev : List Nat) :
    List Nat :=
  match prev with
  | [] => [i1]
  | diag :: rest => i1 :: levRowGo ai b diag i1 rest

/-- The outer loop over the characters of `a`, carrying the current row of
the table. -/
def levLoop (b : List Char) : List Char → Nat → List Nat → List Nat
  | [], _, row => row
  | ai :: arest, i1, row => levLoop b arest (i1 + 1) (levRow ai b i1 row)

/-- Embeds `levenshtein(a, b)`: classic dynamic-programming edit distance with
unit costs.  The JS builds the whole `(m+1)×(n+1)` table; this translation
computes the same rows in order (row `0` is `0..n`) and returns the last
cell `dp[m][n]` of the final row. -/
def levenshtein (a b : String) : Nat :=
  (levLoop b.data a.data 1 (List.range (b.data.length + 1))).getLastD 0

/-- The defining recurrence of the table, `dp[i][j]` as a function: used as
the specification the row computation is proved against. -/
def levDP (a b : List Char) : Nat → Nat → Nat
  | 0, j => j
  | i + 1, 0 => i + 1
  | i + 1, j + 1 =>
      let cost := if a.get? i = b.get? j then 0 else 1
      min (levDP a b i (j + 1) + 1)
        (min (levDP a b (i + 1) j + 1) (levDP a b i j + cost))

/-- One near-miss candidate: the populated field (`id`, `key` or `name`),
its value, and the owning item. -/
structure Cand where
  type : String
  value : String
  item : Item

/-- A candidate together with its edit-distance score. -/
structure Scored where
  type : String
  value : String
  item : Item
  dist : Nat

/-- Candidate pool: each item contributes one candidate per truthy `id`,
`key`, `name` field, in that order, items in enumeration order. -/
def candidatesOf (list : List Item) : List Cand :=
  list.flatMap fun it =>
    (match it.id with
      | some v => if v != "" then [⟨"id", v, it⟩] else []
      | none => [])
    ++ (match it.key with
      | some v => if v != "" then [⟨"key", v, it⟩] else []
      | none => [])
    ++ (match it.name with
      | some v => if v != "" then [⟨"name", v, it⟩] else []
      | none => [])

/-- Insert into a list already sorted by ascending `dist`, before the first
strictly larger element, after equal ones. -/
def insertByDist (x : Scored) : List Scored → List Scored
  | [] => [x]
  | y :: ys => if x.dist ≤ y.dist then x :: y :: ys else y :: insertByDist x ys

/-- Stable sort by ascending `dist`.  `Array.prototype.sort` is stable and
a stable sort by a total preorder has a unique result, so stable insertion
sort computes exactly the list the JS comparator `a.dist - b.dist`
produces. -/
def sortByDist : List Scored → List Scored
  | [] => []
  | x :: xs => insertByDist x (sortByDist xs)

/-- Embeds `nearestSuggestions(list, ident)`: score every candidate by the
case-insensitive edit distance to the identifier, sort ascending, and map
each candidate back to its owning item (without deduplication). -/
def nearestSuggestions (list : List Item) (ident : String) : List Item :=
  let scored := (candidatesOf list).map fun c =>
    Scored.mk c.type c.value c.item (levenshtein (jsToLower ident) (jsToLower c.value))
  (sortByDist scored).map (·.item)

/-- Outcome of identifier resolution. -/
inductive MatchResult where
  | resolved (item : Item)
  | ambiguous (suggestions : List Item)
  | notFound (suggestions : List Item)

/-- Does this optional field match the lower-cased needle?  A falsy value
(absent or empty) never matches. -/
def fieldMatches (v : Option String) (needle : String) : Bool :=
  match v with
  | some s => s != "" && jsToLower s == needle
  | none => false

/-- The items whose selected field matches the needle, in enumeration
order. -/
def matchBy (list : List Item) (needle : String) (sel : Item → Option String) :
    List Item :=
  list.filter fun it => fieldMatches (sel it) needle

/-- Embeds `matchIdentifier(list, ident)`: exact case-insensitive matching with
field priority `id`, then `key`, then `name`, falling through only on zero
matches; one match resolves, several are ambiguous (first 5), none yields
near-miss suggestions (first 5). -/
def matchIdentifier (list : List Item) (ident : String) : MatchResult :=
  let needle := jsToLower ident
  let m1 := matchBy list needle (·.id)
  let found :=
    if m1.isEmpty then
      let m2 := matchBy list needle (·.key)
      if m2.isEmpty then matchBy list needle (·.name) else m2
    else m1
  match found with
  | [it] => .resolved it
  | [] => .notFound ((nearestSuggestions list ident).take 5)
  | more => .ambiguous (more.take 5)

example : truthy (.num 0) = false := by decide
example : getField (.obj [("a", .num 1), ("b", .null)]) "b" = some .null := rfl
example : jsToString (.arr [.num 1, .num 2, .num 3]) = "1,2,3" := rfl
example : safeStr (some (.obj [])) = "[object Object]" := rfl
example : levenshtein "Hello" "hello" = 1 := by decide
example : levenshtein "kitten" "sitting" = 3 := by decide
example : levenshtein "" "hello" = 5 := by decide

/-! ## Association-list lemmas -/

theorem objLookup_objSet_self (l : List (String × Json)) (k : String)
    (v : Json) : objLookup (objSet l k v) k = some v := by
  induction l with
  | nil => simp [objSet, objLookup]
  | cons p rest ih =>
      obtain ⟨k0, v0⟩ := p
      by_cases h : k0 = k
      · subst h; simp [objSet, objLookup]
      · simp [objSet, objLookup, h, ih]

theorem objLookup_objSet_ne (l : List (String × Json)) (k q : String)
    (v : Json) (hq : q ≠ k) : objLookup (objSet l k v) q = objLookup l q := by
  induction l with
  | nil => simp [objSet, objLookup, Ne.symm hq]
  | cons p rest ih =>
      obtain ⟨k0, v0⟩ := p
      by_cases h : k0 = k
      · subst h
        simp [objSet, objLookup, Ne.symm hq]
      · by_cases h2 : k0 = q <;> simp [objSet, objLookup, h, h2, ih, hq]

theorem objLookup_objDelete_self (l : List (String × Json)) (k : String) :
    objLookup (objDelete l k) k = none := by
  induction l with
  | nil => simp [objDelete, objLookup]
  | cons p rest ih =>
      obtain ⟨k0, v0⟩ := p
      by_cases h : k0 = k
      · simpa [objDelete, h] using ih
      · simpa [objDelete, objLookup, h] using ih

theorem objLookup_objDelete_ne (l : List (String × Json)) (k q : String)
    (hq : q ≠ k) : objLookup (objDelete l k) q = objLookup l q := by
  induction l with
  | nil => simp [objDelete]
  | cons p rest ih =>
      obtain ⟨k0, v0⟩ := p
      by_cases h : k0 = k
      · subst h
        simpa [objDelete, objLookup, Ne.symm hq] using ih
      · by_cases h2 : k0 = q <;> simp [objDelete, objLookup, h, h2, ih, hq]

theorem objSet_keys (l : List (String × Json)) (k : String) (v : Json)
    (h : (objLookup l k).isSome) :
    (objSet l k v).map Prod.fst = l.map Prod.fst := by
  induction l with
  | nil => simp [objLookup] at h
  | cons p rest ih =>
      obtain ⟨k0, v0⟩ := p
      by_cases hk : k0 = k
      · subst hk; simp [objSet]
      · simp only [objLookup, hk, if_false] at h
        simp [objSet, hk, ih h]

theorem objSet_eq_self (l : List (String × Json)) (k : String) (v : Json)
    (h : objLookup l k = some v) : objSet l k v = l := by
  induction l with
  | nil => simp [objLookup] at h
  | cons p rest ih =>
      obtain ⟨k0, v0⟩ := p
      by_cases hk : k0 = k
      · subst hk
        simp only [objLookup, if_pos rfl] at h
        injection h with h
        simp [objSet, h]
      · simp only [objLookup, hk, if_false] at h
        simp [objSet, hk, ih h]

/-! ## Levenshtein: the row computation implements the table recurrence -/

theorem levDP_zero_left (a b : List Char) (j : Nat) : levDP a b 0 j = j := by
  simp [levDP]

theorem levDP_zero_right (a b : List Char) (i : Nat) : levDP a b i 0 = i := by
  cases i <;> simp [levDP]

theorem levDP_succ_succ (a b : List Char) (i j : Nat) :
    levDP a b (i + 1) (j + 1) =
      min (levDP a b i (j + 1) + 1)
        (min (levDP a b (i + 1) j + 1)
          (levDP a b i j + if a.get? i = b.get? j then 0 else 1)) := by
  simp [levDP]

theorem levDP_self_diag (s : List Char) (i : Nat) : levDP s s i i = 0 := by
  induction i with
  | zero => simp [levDP]
  | succ n ih => rw [levDP_succ_succ]; simp [ih]

theorem levRowGo_spec (a b : List Char) (ai : Char) (i : Nat)
    (hai : a.get? i = some ai) :
    ∀ (bs : List Char) (j : Nat), b.drop j = bs →
      levRowGo ai bs (levDP a b i j) (levDP a b (i + 1) j)
          ((List.range' (j + 1) bs.length).map (levDP a b i))
        = (List.range' (j + 1) bs.length).map (levDP a b (i + 1)) := by
  intro bs
  induction bs with
  | nil => intro j _; simp [levRowGo]
  | cons bj bs ih =>
      intro j hdrop
      have hbj : b.get? j = some bj := by
        have h := List.get?_drop b j 0
        rw [hdrop] at h
        simpa using h.symm
      have hdrop2 : b.drop (j + 1) = bs := by
        have h := List.drop_drop 1 j b
        rw [hdrop] at h
        simpa [Nat.add_comm] using h.symm
      have hcost : (if ai = bj then (0 : Nat) else 1)
          = (if a.get? i = b.get? j then 0 else 1) := by
        rw [hai, hbj]
        simp
      have hcur : min (levDP a b i (j + 1) + 1)
          (min (levDP a b (i + 1) j + 1)
            (levDP a b i j + if ai = bj then 0 else 1))
          = levDP a b (i + 1) (j + 1) := by
        rw [hcost, levDP_succ_succ]
      simp only [List.length_cons]
      rw [List.range'_succ]
      simp only [List.map_cons]
      simp only [levRowGo]
      simp only [hcur]
      rw [ih (j + 1) hdrop2]

theorem levRow_spec (a b : List Char) (ai : Char) (i : Nat)
    (hai : a.get? i = some ai) :
    levRow ai b (i + 1) ((List.range' 0 (b.length + 1)).map (levDP a b i))
      = (List.range' 0 (b.length + 1)).map (levDP a b (i + 1)) := by
  have hgo := levRowGo_spec a b ai i hai b 0 (by simp)
  rw [List.range'_succ]
  simp only [List.map_cons]
  rw [levRow]
  simp only [levDP_zero_right] at hgo ⊢
  rw [hgo]

theorem levLoop_spec (a b : List Char) :
    ∀ (as : List Char) (i : Nat), a.drop i = as → i ≤ a.length →
      levLoop b as (i + 1) ((List.range' 0 (b.length + 1)).map (levDP a b i))
        = (List.range' 0 (b.length + 1)).map (levDP a b a.length) := by
  intro as
  induction as with
  | nil =>
      intro i hdrop hle
      have : a.length - i = 0 := by
        have := congrArg List.length hdrop
        simpa using this
      have hi : i = a.length := by omega
      subst hi
      rfl
  | cons ai arest ih =>
      intro i hdrop hle
      have hai : a.get? i = some ai := by
        have h := List.get?_drop a i 0
        rw [hdrop] at h
        simpa using h.symm
      have hdrop2 : a.drop (i + 1) = arest := by
        have h := List.drop_drop 1 i a
        rw [hdrop] at h
        simpa [Nat.add_comm] using h.symm
      have hlt : i < a.length := by
        by_contra hcon
        rw [List.drop_eq_nil_of_le (by omega)] at hdrop
        exact List.noConfusion hdrop
      rw [levLoop]
      rw [levRow_spec a b ai i hai]
      exact ih (i + 1) hdrop2 (by omega)

theorem getLastD_map_range' (f : Nat → Nat) :
    ∀ (n s d : Nat), ((List.range' s (n + 1)).map f).getLastD d = f (s + n)
  | 0, s, d => by simp [List.range'_succ]
  | n + 1, s, d => by
      rw [List.range'_succ]
      simp only [List.map_cons, List.getLastD_cons]
      rw [getLastD_map_range' f n (s + 1) (f s)]
      congr 1
      omega

theorem levenshtein_eq_levDP (a b : String) :
    levenshtein a b = levDP a.data b.data a.data.length b.data.length := by
  unfold levenshtein
  have hrow : List.range (b.data.length + 1)
      = (List.range' 0 (b.data.length + 1)).map (levDP a.data b.data 0) := by
    rw [List.range_eq_range']
    have : ∀ x ∈ List.range' 0 (b.data.length + 1),
        x = levDP a.data b.data 0 x := fun x _ => (levDP_zero_left _ _ x).symm
    exact List.map_congr_left this ▸ (List.map_id _).symm ▸ rfl
  rw [hrow, levLoop_spec a.data b.data a.data 0 (by simp) (by simp)]
  rw [getLastD_map_range' (levDP a.data b.data a.data.length) b.data.length 0 0]
  rw [Nat.zero_add]

/-! ## Claim C8: the Levenshtein function -/

/-- C8: `levenshtein` computes the classic dynamic-programming edit
distance with unit costs: it agrees with the defining table recurrence
`levDP` everywhere; `levenshtein s s = 0` for every string;
`levenshtein "" s = s.length` and symmetrically; and
`levenshtein "Hello" "hello" = 1`. -/
theorem levenshtein_classic_properties :
    (∀ a b : String,
      levenshtein a b = levDP a.data b.data a.data.length b.data.length)
    ∧ (∀ s : String, levenshtein s s = 0)
    ∧ (∀ s : String,
        levenshtein "" s = s.length ∧ levenshtein s "" = s.length)
    ∧ levenshtein "Hello" "hello" = 1 := by
  refine ⟨levenshtein_eq_levDP, fun s => ?_, fun s => ⟨?_, ?_⟩, by decide⟩
  · rw [levenshtein_eq_levDP]
    exact levDP_self_diag _ _
  · rw [levenshtein_eq_levDP]
    exact levDP_zero_left _ _ _
  · rw [levenshtein_eq_levDP]
    exact levDP_zero_right _ _ _

/-! ## Claim C5: schema detection on absent and scalar collections -/

/-- A JSON value that is neither an array nor an object. -/
def isScalar : Json → Bool
  | .arr _ => false
  | .obj _ => false
  | _ => true

/-- C5 (amended): an absent `mcpServers` defaults to the object shape with
no marker; a present scalar value fails with `UnsupportedSchema` only when
it is truthy — a falsy scalar (`0`, `""`, `false`, `null`) falls into the
same permissive default as an absent field. -/
theorem detectSchema_absent_and_scalars (cfg : Config) :
    (cfg.mcpServers = none → detectSchema cfg = .ok ⟨.object, false⟩)
    ∧ (∀ v, cfg.mcpServers = some v → isScalar v = true →
        detectSchema cfg =
          if truthy v then
            .error "Unsupported mcpServers schema: must be object or array"
          else .ok ⟨.object, false⟩) := by
  constructor
  · intro h
    simp [detectSchema, h]
  · intro v hv hs
    unfold detectSchema
    rw [hv]
    cases v with
    | null => simp [truthy]
    | bool b => cases b <;> simp [truthy]
    | num n =>
        by_cases hn : n = 0 <;> simp [truthy, hn]
    | str s =>
        by_cases hstr : s = "" <;> simp [truthy, hstr]
    | arr xs => simp [isScalar] at hs
    | obj l => simp [isScalar] at hs

/-- C5 counterexample to the claim as stated: a present scalar `0` under
`mcpServers` does not fail with `UnsupportedSchema`; it is detected as the
permissive object-shape default. -/
theorem detectSchema_zero_scalar_counterexample :
    detectSchema ⟨some (.num 0), none, []⟩ = .ok ⟨.object, false⟩ := rfl

/-- Witness for `detectSchema_absent_and_scalars`: a truthy scalar does
fail with the unsupported-schema error. -/
theorem detectSchema_scalar_witness :
    detectSchema ⟨some (.str "nope"), none, []⟩
      = .error "Unsupported mcpServers schema: must be object or array" := by
  have h := (detectSchema_absent_and_scalars ⟨some (.str "nope"), none, []⟩).2
    (.str "nope") rfl rfl
  simpa [truthy] using h

/-! ## Claim C6: derived status of a packed item -/

/-- C6: over entries of the data model (a declared `enabled` field is a
boolean), a packed item's status is `disabled` iff its container is the
disabled one or the entry declares `enabled` with value `false`. -/
theorem packItem_status_iff (defn : Json) (container : Container)
    (shape : Shape) (key : Option String) (index : Option Nat)
    (h : ∀ v, getField defn "enabled" = some v → ∃ b, v = Json.bool b) :
    (packItem defn container shape key index).status = .disabled ↔
      (container = .disabled ∨ getField defn "enabled" = some (.bool false)) := by
  unfold packItem
  cases hget : getField defn "enabled" with
  | none => cases container <;> simp [hasField, hget]
  | some v =>
      obtain ⟨b, rfl⟩ := h v hget
      cases container <;> cases b <;> simp [hasField, hget, truthy]

/-- Witness for `packItem_status_iff`: an active-container entry with
`enabled: false` is packed with status `disabled`. -/
theorem packItem_status_witness :
    (packItem (.obj [("enabled", .bool false)]) .active .object
      (some "x") none).status = .disabled := by
  exact (packItem_status_iff (.obj [("enabled", .bool false)]) .active .object
      (some "x") none
      (fun v hv => ⟨false, by simpa [getField, objLookup] using hv.symm⟩)).mpr
    (Or.inr rfl)

/-! ## Claim C9: id/name string coercion in packed items -/

/-- C9 (amended): a packed item's `id` (resp. `name`) equals the string
coercion of the entry's field whenever the field is present, non-null and
its coercion is non-empty; it is absent otherwise — in particular for an
empty-string field, which the claim as stated would keep. -/
theorem packItem_id_name_coercion (defn : Json) (c : Container) (sh : Shape)
    (k : Option String) (ix : Option Nat) :
    ((packItem defn c sh k ix).id =
      match getField defn "id" with
      | none => none
      | some .null => none
      | some v => if jsToString v = "" then none else some (jsToString v))
    ∧ ((packItem defn c sh k ix).name =
      match getField defn "name" with
      | none => none
      | some .null => none
      | some v => if jsToString v = "" then none else some (jsToString v)) := by
  constructor
  · unfold packItem
    cases hget : getField defn "id" with
    | none => simp [safeStr, hget]
    | some v => cases v <;> simp [safeStr, hget, jsToString]
  · unfold packItem
    cases hget : getField defn "name" with
    | none => simp [safeStr, hget]
    | some v => cases v <;> simp [safeStr, hget, jsToString]

/-- C9 counterexample to the claim as stated: an entry declaring
`id: ""` (present, non-null, empty string) is packed with `id` absent,
not with the empty-string coercion. -/
theorem packItem_empty_string_id_counterexample :
    getField (.obj [("id", .str "")]) "id" = some (.str "")
    ∧ (packItem (.obj [("id", .str "")]) .active .object
        (some "x") none).id = none := ⟨rfl, rfl⟩

/-! ## Claim C3: tiered identifier resolution -/

/-- Specification-side definition of the matches at the highest-priority
field tier: exact case-insensitive matches on `id` across all items; only
when there are none, the same on `key`; only when there are none, the same
on `name`. -/
def specTierMatches (list : List Item) (ident : String) : List Item :=
  let needle := jsToLower ident
  match list.filter fun it => fieldMatches it.id needle with
  | [] =>
      match list.filter fun it => fieldMatches it.key needle with
      | [] => list.filter fun it => fieldMatches it.name needle
      | byKey => byKey
  | byId => byId

/-- Lemma: `matchIdentifier` decides the outcome entirely from the matches at the
highest-priority tier. -/
theorem matchIdentifier_cases (list : List Item) (ident : String) :
    matchIdentifier list ident =
      match specTierMatches list ident with
      | [it] => .resolved it
      | [] => .notFound ((nearestSuggestions list ident).take 5)
      | more => .ambiguous (more.take 5) := by
  unfold matchIdentifier specTierMatches matchBy
  cases h1 : list.filter fun it => fieldMatches it.id (jsToLower ident) with
  | cons x xs => simp [h1]
  | nil =>
      cases h2 : list.filter fun it => fieldMatches it.key (jsToLower ident) with
      | cons x xs => simp [h1, h2]
      | nil => simp [h1, h2]

/-- C3: resolution uses exact case-insensitive matching with field
priority `id`, `key`, `name`, falling to a lower field only on zero
matches: a unique match at the highest matching tier resolves, two or more
are ambiguous with exactly those items (first 5, enumeration order) and
lower fields are never consulted, and zero matches at all tiers give
`NotFound`. -/
theorem matchIdentifier_tier_refinement (list : List Item) (ident : String) :
    (∀ it, specTierMatches list ident = [it] →
      matchIdentifier list ident = .resolved it)
    ∧ (2 ≤ (specTierMatches list ident).length →
      matchIdentifier list ident
        = .ambiguous ((specTierMatches list ident).take 5))
    ∧ (specTierMatches list ident = [] →
      matchIdentifier list ident
        = .notFound ((nearestSuggestions list ident).take 5)) := by
  refine ⟨?_, ?_, ?_⟩
  · intro it h
    rw [matchIdentifier_cases, h]
  · intro h
    rw [matchIdentifier_cases]
    generalize hs : specTierMatches list ident = s at h ⊢
    match s with
    | [] => simp at h
    | [x] => simp at h
    | x :: y :: rest => rfl
  · intro h
    rw [matchIdentifier_cases, h]

/-- An item whose `id` exactly matches the probe while another item's
`key` also matches it. -/
def itPriA : Item :=
  ⟨some "other", some "test", some "Test", .obj [], .active, .enabled,
    .object, none⟩

/-- The companion item whose `key` matches the probe. -/
def itPriB : Item :=
  ⟨some "test", some "other2", some "Other", .obj [], .active, .enabled,
    .object, none⟩

/-- Witness for `matchIdentifier_tier_refinement`: an identifier matching
one item's `id` and a different item's `key` resolves to the `id` match. -/
theorem matchIdentifier_tier_witness :
    matchIdentifier [itPriA, itPriB] "test" = .resolved itPriA :=
  (matchIdentifier_tier_refinement [itPriA, itPriB] "test").1 itPriA rfl

/-! ## Claim C4: near-miss suggestions are not deduplicated -/

theorem mem_insertByDist (x y : Scored) (l : List Scored) :
    y ∈ insertByDist x l ↔ y = x ∨ y ∈ l := by
  induction l with
  | nil => simp [insertByDist]
  | cons z zs ih =>
      by_cases h : x.dist ≤ z.dist <;> simp [insertByDist, h, ih] <;> tauto

theorem mem_sortByDist (y : Scored) (l : List Scored) :
    y ∈ sortByDist l ↔ y ∈ l := by
  induction l with
  | nil => simp [sortByDist]
  | cons z zs ih => simp [sortByDist, mem_insertByDist, ih]

theorem mem_candField {c : Cand} {t : String} {v0 : Option String}
    {it : Item}
    (hc : c ∈ (match v0 with
      | some v => if v != "" then [Cand.mk t v it] else []
      | none => [])) : c.item = it := by
  match v0 with
  | none => simp at hc
  | some v =>
      cases h : v != "" <;> simp [h] at hc
      rw [hc]

theorem candidatesOf_item_mem (list : List Item) (c : Cand)
    (hc : c ∈ candidatesOf list) : c.item ∈ list := by
  unfold candidatesOf at hc
  rw [List.mem_flatMap] at hc
  obtain ⟨it, hit, hc⟩ := hc
  rcases List.mem_append.mp hc with hc | hc
  · rcases List.mem_append.mp hc with hc | hc
    · rw [mem_candField hc]; exact hit
    · rw [mem_candField hc]; exact hit
  · rw [mem_candField hc]; exact hit

/-- Every suggestion is an item of the input list. -/
theorem nearestSuggestions_mem (list : List Item) (ident : String) :
    ∀ it ∈ nearestSuggestions list ident, it ∈ list := by
  intro it hit
  unfold nearestSuggestions at hit
  rw [List.mem_map] at hit
  obtain ⟨s, hs, rfl⟩ := hit
  rw [mem_sortByDist] at hs
  rw [List.mem_map] at hs
  obtain ⟨c, hc, rfl⟩ := hs
  exact candidatesOf_item_mem list c hc

/-- C4 (amended): with zero exact matches the result is `NotFound` with the
first 5 owners of the distance-sorted candidate pool — at most five
suggestions, each an item of the list, but *without* deduplication, so an
item whose several fields score well may appear more than once. -/
theorem matchIdentifier_notFound_suggestions (list : List Item)
    (ident : String)
    (h1 : matchBy list (jsToLower ident) (·.id) = [])
    (h2 : matchBy list (jsToLower ident) (·.key) = [])
    (h3 : matchBy list (jsToLower ident) (·.name) = []) :
    matchIdentifier list ident
        = .notFound ((nearestSuggestions list ident).take 5)
    ∧ ((nearestSuggestions list ident).take 5).length ≤ 5
    ∧ ∀ it ∈ (nearestSuggestions list ident).take 5, it ∈ list := by
  refine ⟨?_, ?_, ?_⟩
  · rw [matchIdentifier_cases]
    have hs : specTierMatches list ident = [] := by
      unfold matchBy at h1 h2 h3
      dsimp only at h1 h2 h3
      unfold specTierMatches
      dsimp only
      rw [h1, h2, h3]
    rw [hs]
  · simpa using Nat.min_le_left 5 (nearestSuggestions list ident).length
  · intro it hit
    exact nearestSuggestions_mem list ident it (List.mem_of_mem_take hit)

/-- The item whose `id` and `name` both sit at distance 1 from the probe
identifier. -/
def itDup : Item :=
  ⟨none, some "github", some "githup", .obj [], .active, .enabled,
    .object, none⟩

/-- C4 counterexample to the claim as stated: with the probe `githud`,
both fields of the single item enter the candidate pool and the
suggestion list contains that item twice — the claimed deduplication does
not happen. -/
theorem nearestSuggestions_duplicate_counterexample :
    matchIdentifier [itDup] "githud" = .notFound [itDup, itDup]
    ∧ ¬ ([itDup, itDup].Nodup) := by
  refine ⟨rfl, ?_⟩
  intro h
  exact (List.nodup_cons.mp h).1 (List.mem_singleton.mpr rfl)

/-- Witness for `matchIdentifier_notFound_suggestions` at a concrete
no-match input. -/
theorem matchIdentifier_notFound_witness :
    matchIdentifier [itDup] "zzz"
      = .notFound ((nearestSuggestions [itDup] "zzz").take 5) :=
  (matchIdentifier_notFound_suggestions [itDup] "zzz" rfl rfl rfl).1

/-! ## Transition-engine helpers -/

/-- The top-level field a container tag refers to. -/
def containerField (cfg : Config) : Container → Option Json
  | .active => cfg.mcpServers
  | .disabled => cfg.mcpServersDisabled

/-- The opposite container. -/
def otherContainer : Container → Container
  | .active => .disabled
  | .disabled => .active

/-- Describes `ensureContainers` for the object shape, described fieldwise: each
container becomes the object holding exactly the entries it already
exposed (an absent or wrongly-typed container exposes none). -/
theorem ensure_object_fields (cfg : Config) :
    ensureContainers cfg .object =
      ⟨some (.obj (objEntries cfg.mcpServers)),
        some (.obj (objEntries cfg.mcpServersDisabled)), cfg.extra⟩ := by
  rcases cfg with ⟨ms, md, ex⟩
  rcases ms with _ | v <;> rcases md with _ | w <;>
    first
    | (cases v <;> cases w <;> rfl)
    | (cases v <;> rfl)
    | (cases w <;> rfl)
    | rfl

/-- Describes `ensureContainers` for the array shape, described fieldwise. -/
theorem ensure_array_fields (cfg : Config) :
    ensureContainers cfg .array =
      ⟨some (.arr (arrEntries cfg.mcpServers)),
        some (.arr (arrEntries cfg.mcpServersDisabled)), cfg.extra⟩ := by
  rcases cfg with ⟨ms, md, ex⟩
  rcases ms with _ | v <;> rcases md with _ | w <;>
    first
    | (cases v <;> cases w <;> rfl)
    | (cases v <;> rfl)
    | (cases w <;> rfl)
    | rfl

/-- A value structurally equal to the boolean `false` is the boolean
`false`. -/
theorem beq_bool_false_eq {w : Json} (h : Json.beq w (.bool false) = true) :
    w = .bool false := by
  cases w <;> simp [Json.beq] at h ⊢
  exact h

theorem objEntries_some_obj (l : List (String × Json)) :
    objEntries (some (.obj l)) = l := rfl

theorem arrEntries_some_arr (l : List Json) :
    arrEntries (some (.arr l)) = l := rfl

/-- The strict test `enabled === false`, propositionally. -/
theorem enabledIsFalse_iff (d : Json) :
    enabledIsFalse d = true ↔ getField d "enabled" = some (.bool false) := by
  unfold enabledIsFalse
  rcases hg : getField d "enabled" with _ | w
  · constructor
    · intro h; exact absurd h (by decide)
    · intro h; exact Option.noConfusion h
  · constructor
    · intro h
      have hw : Json.beq w (.bool false) = true := h
      rw [beq_bool_false_eq hw]
    · intro h
      injection h with h
      subst h
      rfl

/-- A lookup that succeeds on the exposed entries forces the container to
be an object holding them. -/
theorem containerField_of_lookup {cfg : Config} {c : Container} {k : String}
    {d : Json}
    (h : objLookup (objEntries (containerField cfg c)) k = some d) :
    containerField cfg c = some (.obj (objEntries (containerField cfg c))) := by
  rcases hcf : containerField cfg c with _ | v
  · rw [hcf] at h; simp [objEntries, objLookup] at h
  · cases v <;> rw [hcf] at h <;> simp [objEntries, objLookup] at h ⊢

/-! ## Claim C1: Indexed-shape disable without a marker -/

/-- C1 (amended): on an array-shaped schema, disabling an entry that lacks
its own `enabled` field fails with the unsupported-transition error and no
entry is touched — but the failing call has already materialized the
containers, so the resulting document is exactly `ensureContainers` of the
input: an array `mcpServers` is unchanged and the unrelated top-level
fields survive, while a missing (or wrongly-typed) `mcpServersDisabled` is
created as an empty array. -/
theorem performDisable_indexed_no_marker (cfg : Config) (item : Item)
    (schema : Schema) (hs : schema.shape = .array)
    (hm : hasField item.defn "enabled" = false) :
    (performDisable cfg item schema).2 = .error unsupportedDisableMsg
    ∧ (performDisable cfg item schema).1 = ensureContainers cfg .array
    ∧ (∀ l, cfg.mcpServers = some (.arr l) →
        (performDisable cfg item schema).1.mcpServers = some (.arr l))
    ∧ (performDisable cfg item schema).1.extra = cfg.extra := by
  have hbr : performDisable cfg item schema
      = (ensureContainers cfg .array, .error unsupportedDisableMsg) := by
    unfold performDisable
    simp [hs, hm]
  refine ⟨by rw [hbr], by rw [hbr], ?_, by rw [hbr, ensure_array_fields]⟩
  intro l hl
  rw [hbr, ensure_array_fields]
  simp [arrEntries, hl]

/-- The Indexed-shape document of the specification's own example. -/
def cfgIdx : Config := ⟨some (.arr [.obj [("id", .str "x")]]), none, []⟩

/-- The single enumerated item of `cfgIdx`. -/
def itIdx : Item := packItem (.obj [("id", .str "x")]) .active .array none (some 0)

/-- C1 counterexample to the claim as stated: on `{mcpServers:[{"id":"x"}]}`
the failed disable raises the unsupported-transition error but does *not*
leave the document unchanged — it adds `mcpServersDisabled: []`, which was
absent before the call. -/
theorem performDisable_indexed_counterexample :
    enumerateServers cfgIdx = [itIdx]
    ∧ detectSchema cfgIdx = .ok ⟨.array, false⟩
    ∧ matchIdentifier [itIdx] "x" = .resolved itIdx
    ∧ (performDisable cfgIdx itIdx ⟨.array, false⟩).2
        = .error unsupportedDisableMsg
    ∧ (performDisable cfgIdx itIdx ⟨.array, false⟩).1.mcpServersDisabled
        = some (.arr [])
    ∧ cfgIdx.mcpServersDisabled = none :=
  ⟨rfl, rfl, rfl, rfl, rfl, rfl⟩

/-- Witness for `performDisable_indexed_no_marker` at the specification's
example document. -/
theorem performDisable_indexed_no_marker_witness :
    (performDisable cfgIdx itIdx ⟨.array, false⟩).2
        = .error unsupportedDisableMsg
    ∧ (performDisable cfgIdx itIdx ⟨.array, false⟩).1
        = ensureContainers cfgIdx .array :=
  ⟨(performDisable_indexed_no_marker cfgIdx itIdx ⟨.array, false⟩ rfl rfl).1,
    (performDisable_indexed_no_marker cfgIdx itIdx ⟨.array, false⟩ rfl rfl).2.1⟩

/-! ## Claim C2: marker-present disable toggles and never relocates -/

/-- C2: on a Keyed (object-shape) document, disabling a matched item whose
entry declares `enabled` succeeds, only sets that boolean to `false`
(idempotently), keeps the entry under the same key of the same container
with the same remaining payload, preserves the container's key set, and
leaves the other container's entries untouched. -/
theorem performDisable_marker_toggles_only (cfg : Config) (item : Item)
    (schema : Schema) (k : String)
    (hs : schema.shape = .object)
    (hk : item.key = some k)
    (hv : objLookup (objEntries (containerField cfg item.container)) k
        = some item.defn)
    (hm : hasField item.defn "enabled" = true) :
    (∃ msgs, (performDisable cfg item schema).2 = .ok msgs)
    ∧ objLookup (objEntries
        (containerField (performDisable cfg item schema).1 item.container)) k
        = some (setFieldJson item.defn "enabled" (.bool false))
    ∧ (objEntries
        (containerField (performDisable cfg item schema).1 item.container)).map
          Prod.fst
        = (objEntries (containerField cfg item.container)).map Prod.fst
    ∧ objEntries (containerField (performDisable cfg item schema).1
        (otherContainer item.container))
        = objEntries (containerField cfg (otherContainer item.container)) := by
  have hkey : keyOfItem item = k := by simp [keyOfItem, hk]
  have hensure : ∀ c, objEntries (containerField (ensureContainers cfg .object) c)
      = objEntries (containerField cfg c) := by
    intro c
    rw [ensure_object_fields]
    cases c <;> simp [containerField, objEntries]
  by_cases hf : enabledIsFalse item.defn = true
  · -- already `enabled: false`: nothing is written
    have hbr : performDisable cfg item schema
        = (ensureContainers cfg .object, .ok ["already enabled=false"]) := by
      unfold performDisable
      simp [hs, hm, hf]
    -- the stored entry already equals the toggled entry
    have hval := (enabledIsFalse_iff item.defn).mp hf
    have hself : setFieldJson item.defn "enabled" (.bool false) = item.defn := by
      rcases hd : item.defn with _ | _ | _ | _ | _ | dl <;> rw [hd] at hval <;>
        simp [getField] at hval
      simp [setFieldJson, objSet_eq_self dl "enabled" (.bool false) hval]
    rw [hbr]
    refine ⟨⟨_, rfl⟩, ?_, ?_, ?_⟩
    · rw [hensure, hself, hv]
    · rw [hensure]
    · rw [hensure]
  · -- live toggle through the entry reference
    have hf2 : enabledIsFalse item.defn = false := by
      simpa using hf
    have hbr : performDisable cfg item schema
        = (writeEntryObj (ensureContainers cfg .object) item.container k
            (setFieldJson item.defn "enabled" (.bool false)),
          .ok ["set enabled=false"]) := by
      unfold performDisable
      simp [hs, hm, hf2, hkey]
    rw [hbr, ensure_object_fields]
    cases hc : item.container with
    | active =>
        rw [hc] at hv
        simp only [containerField] at hv
        have hps : (objLookup (objEntries cfg.mcpServers) k).isSome := by
          rw [hv]; rfl
        refine ⟨⟨_, rfl⟩, ?_, ?_, ?_⟩
        · simp only [writeEntryObj, containerField, objEntries_some_obj,
            objSetIfPresent, hps, if_true]
          exact objLookup_objSet_self _ _ _
        · simp only [writeEntryObj, containerField, objEntries_some_obj,
            objSetIfPresent, hps, if_true]
          exact objSet_keys _ _ _ hps
        · simp only [otherContainer, writeEntryObj, containerField,
            objEntries_some_obj]
    | disabled =>
        rw [hc] at hv
        simp only [containerField] at hv
        have hps : (objLookup (objEntries cfg.mcpServersDisabled) k).isSome := by
          rw [hv]; rfl
        refine ⟨⟨_, rfl⟩, ?_, ?_, ?_⟩
        · simp only [writeEntryObj, containerField, objEntries_some_obj,
            objSetIfPresent, hps, if_true]
          exact objLookup_objSet_self _ _ _
        · simp only [writeEntryObj, containerField, objEntries_some_obj,
            objSetIfPresent, hps, if_true]
          exact objSet_keys _ _ _ hps
        · simp only [otherContainer, writeEntryObj, containerField,
            objEntries_some_obj]

/-- Marker-present keyed document from the specification's example. -/
def cfgMk : Config :=
  ⟨some (.obj [("x", .obj [("enabled", .bool true)])]), none, []⟩

/-- The enumerated item of `cfgMk`. -/
def itMk : Item :=
  packItem (.obj [("enabled", .bool true)]) .active .object (some "x") none

/-- Witness for `performDisable_marker_toggles_only`: disabling `x` in
`{mcpServers:{x:{enabled:true}}}` flips the marker in place and `x` stays
in the active container. -/
theorem performDisable_marker_witness :
    objLookup (objEntries
      (containerField (performDisable cfgMk itMk ⟨.object, true⟩).1 .active)) "x"
      = some (.obj [("enabled", .bool false)]) := by
  have h := (performDisable_marker_toggles_only cfgMk itMk ⟨.object, true⟩ "x"
    rfl rfl rfl rfl).2.1
  exact h

/-! ## Claim C7: keyed round trips -/

/-- Object-shape disable of an active entry without a marker: the entry is
moved from `mcpServers` to `mcpServersDisabled` under its key. -/
theorem performDisable_object_move (cfg : Config) (item : Item)
    (schema : Schema) (hs : schema.shape = .object)
    (hm : hasField item.defn "enabled" = false)
    (hc : item.container = .active) :
    performDisable cfg item schema =
      (⟨some (.obj (objDelete (objEntries cfg.mcpServers) (keyOfItem item))),
        some (.obj (objSet (objEntries cfg.mcpServersDisabled) (keyOfItem item)
          item.defn)),
        cfg.extra⟩,
        .ok ["moved " ++ keyOfItem item
          ++ " from mcpServers to mcpServersDisabled"]) := by
  unfold performDisable
  rw [ensure_object_fields]
  simp [hs, hm, hc, objEntries_some_obj]

/-- Object-shape enable of a disabled entry without a marker: the entry is
moved from `mcpServersDisabled` to `mcpServers` under its key, and no
marker toggle happens. -/
theorem performEnable_object_move_noToggle (cfg : Config) (item : Item)
    (schema : Schema) (hs : schema.shape = .object)
    (hm : hasField item.defn "enabled" = false)
    (hc : item.container = .disabled) :
    performEnable cfg item schema =
      (⟨some (.obj (objSet (objEntries cfg.mcpServers) (keyOfItem item)
          item.defn)),
        some (.obj (objDelete (objEntries cfg.mcpServersDisabled)
          (keyOfItem item))),
        cfg.extra⟩,
        ["moved " ++ keyOfItem item
          ++ " from mcpServersDisabled to mcpServers"]) := by
  unfold performEnable
  rw [ensure_object_fields]
  simp [hs, hm, hc, objEntries_some_obj]

/-- The item the enumerator produces for entry `d` under key `k` of the
given container of a keyed document. -/
def keyedItem (d : Json) (c : Container) (k : String) : Item :=
  packItem d c .object (some k) none

/-- Runs `disable` then `enable` on the keyed entry `k`, re-addressed in the
container the first call moved it to. -/
def disableThenEnable (cfg : Config) (schema : Schema) (k : String)
    (d : Json) : Config :=
  (performEnable (performDisable cfg (keyedItem d .active k) schema).1
    (keyedItem d .disabled k) schema).1

/-- Runs `enable` then `disable` on the keyed entry `k`, re-addressed in the
container the first call moved it to. -/
def enableThenDisable (cfg : Config) (schema : Schema) (k : String)
    (d : Json) : Config :=
  (performDisable (performEnable cfg (keyedItem d .disabled k) schema).1
    (keyedItem d .active k) schema).1

/-- C7 (amended): on a Keyed document with no marker on the target entry,
the round trip whose first call relocates the entry restores both
containers' membership: disable-then-enable on an entry of the active
container (not shadowed in the disabled one), and enable-then-disable on
an entry of the disabled container (not shadowed in the active one),
return every key of both containers, including the entry's own key and
payload, to its original mapping.  The pair in the opposite order starts
with a no-op and does not return the entry to its container (see the
counterexample). -/
theorem roundTrip_restores_membership (cfg : Config) (schema : Schema)
    (k : String) (d : Json)
    (hs : schema.shape = .object) (hm : hasField d "enabled" = false) :
    (objLookup (objEntries cfg.mcpServers) k = some d →
      objLookup (objEntries cfg.mcpServersDisabled) k = none →
      ∀ q,
        objLookup (objEntries (disableThenEnable cfg schema k d).mcpServers) q
            = objLookup (objEntries cfg.mcpServers) q
        ∧ objLookup
            (objEntries (disableThenEnable cfg schema k d).mcpServersDisabled) q
            = objLookup (objEntries cfg.mcpServersDisabled) q)
    ∧ (objLookup (objEntries cfg.mcpServersDisabled) k = some d →
      objLookup (objEntries cfg.mcpServers) k = none →
      ∀ q,
        objLookup (objEntries (enableThenDisable cfg schema k d).mcpServers) q
            = objLookup (objEntries cfg.mcpServers) q
        ∧ objLookup
            (objEntries (enableThenDisable cfg schema k d).mcpServersDisabled) q
            = objLookup (objEntries cfg.mcpServersDisabled) q) := by
  have hd1 : (keyedItem d .active k).defn = d := rfl
  have hd2 : (keyedItem d .disabled k).defn = d := rfl
  have hk1 : keyOfItem (keyedItem d .active k) = k := rfl
  have hk2 : keyOfItem (keyedItem d .disabled k) = k := rfl
  constructor
  · intro h1 h2 q
    have hdis := performDisable_object_move cfg (keyedItem d .active k) schema
      hs (hd1 ▸ hm) rfl
    rw [hd1, hk1] at hdis
    unfold disableThenEnable
    rw [hdis]
    have hen := performEnable_object_move_noToggle
      (⟨some (.obj (objDelete (objEntries cfg.mcpServers) k)),
        some (.obj (objSet (objEntries cfg.mcpServersDisabled) k d)),
        cfg.extra⟩)
      (keyedItem d .disabled k) schema hs (hd2 ▸ hm) rfl
    rw [hd2, hk2] at hen
    rw [hen]
    simp only [objEntries_some_obj]
    by_cases hq : q = k
    · subst hq
      constructor
      · rw [objLookup_objSet_self, h1]
      · rw [objLookup_objDelete_self, h2]
    · constructor
      · rw [objLookup_objSet_ne _ _ _ _ hq, objLookup_objDelete_ne _ _ _ hq]
      · rw [objLookup_objDelete_ne _ _ _ hq, objLookup_objSet_ne _ _ _ _ hq]
  · intro h1 h2 q
    have hen := performEnable_object_move_noToggle cfg
      (keyedItem d .disabled k) schema hs (hd2 ▸ hm) rfl
    rw [hd2, hk2] at hen
    unfold enableThenDisable
    rw [hen]
    have hdis := performDisable_object_move
      (⟨some (.obj (objSet (objEntries cfg.mcpServers) k d)),
        some (.obj (objDelete (objEntries cfg.mcpServersDisabled) k)),
        cfg.extra⟩)
      (keyedItem d .active k) schema hs (hd1 ▸ hm) rfl
    rw [hd1, hk1] at hdis
    rw [hdis]
    simp only [objEntries_some_obj]
    by_cases hq : q = k
    · subst hq
      constructor
      · rw [objLookup_objDelete_self, h2]
      · rw [objLookup_objSet_self, h1]
    · constructor
      · rw [objLookup_objDelete_ne _ _ _ hq, objLookup_objSet_ne _ _ _ _ hq]
      · rw [objLookup_objSet_ne _ _ _ _ hq, objLookup_objDelete_ne _ _ _ hq]

/-- The keyed marker-free document `{mcpServers: {x: {}}}`. -/
def cfgRT : Config := ⟨some (.obj [("x", .obj [])]), none, []⟩

/-- C7 counterexample to the claim as stated: on `{mcpServers:{x:{}}}`,
`enable` immediately followed by `disable` on the (active) entry `x` does
*not* restore the original membership — the enable is a no-op and the
disable then relocates `x` into `mcpServersDisabled`, so the entry ends in
the other container. -/
theorem roundTrip_counterexample :
    detectSchema cfgRT = .ok ⟨.object, false⟩
    ∧ enumerateServers cfgRT = [keyedItem (.obj []) .active "x"]
    ∧ (performEnable cfgRT (keyedItem (.obj []) .active "x")
        ⟨.object, false⟩).1.mcpServers = some (.obj [("x", .obj [])])
    ∧ enumerateServers (performEnable cfgRT (keyedItem (.obj []) .active "x")
        ⟨.object, false⟩).1 = [keyedItem (.obj []) .active "x"]
    ∧ (performDisable (performEnable cfgRT (keyedItem (.obj []) .active "x")
          ⟨.object, false⟩).1
        (keyedItem (.obj []) .active "x") ⟨.object, false⟩).1.mcpServers
        = some (.obj [])
    ∧ (performDisable (performEnable cfgRT (keyedItem (.obj []) .active "x")
          ⟨.object, false⟩).1
        (keyedItem (.obj []) .active "x") ⟨.object, false⟩).1.mcpServersDisabled
        = some (.obj [("x", .obj [])])
    ∧ cfgRT.mcpServers = some (.obj [("x", .obj [])])
    ∧ cfgRT.mcpServersDisabled = none :=
  ⟨rfl, rfl, rfl, rfl, rfl, rfl, rfl, rfl⟩

/-- Witness for `roundTrip_restores_membership`: disable-then-enable on the
active entry `x` of `{mcpServers:{x:{}}}` leaves `x` under the active
container. -/
theorem roundTrip_witness :
    objLookup (objEntries
      (disableThenEnable cfgRT ⟨.object, false⟩ "x" (.obj [])).mcpServers) "x"
      = objLookup (objEntries cfgRT.mcpServers) "x" :=
  ((roundTrip_restores_membership cfgRT ⟨.object, false⟩ "x" (.obj [])
    rfl rfl).1 rfl rfl "x").1

/-! ## Claim C10: container materialization invariant -/

/-- Does an optional top-level value hold a collection of the given
shape? -/
def hasShape : Option Json → Shape → Bool
  | some (.obj _), .object => true
  | some (.arr _), .array => true
  | _, _ => false

/-- The empty collection of a shape. -/
def emptyColl : Shape → Json
  | .object => .obj []
  | .array => .arr []

theorem ensure_materializes (cfg : Config) (sh : Shape) :
    (ensureContainers cfg sh).mcpServers
        = (if hasShape cfg.mcpServers sh then cfg.mcpServers
          else some (emptyColl sh))
    ∧ (ensureContainers cfg sh).mcpServersDisabled
        = (if hasShape cfg.mcpServersDisabled sh then cfg.mcpServersDisabled
          else some (emptyColl sh)) := by
  cases sh
  · rw [ensure_object_fields]
    constructor
    · rcases hms : cfg.mcpServers with _ | v
      · simp [hasShape, emptyColl, objEntries]
      · cases v <;> simp [hasShape, emptyColl, objEntries]
    · rcases hms : cfg.mcpServersDisabled with _ | v
      · simp [hasShape, emptyColl, objEntries]
      · cases v <;> simp [hasShape, emptyColl, objEntries]
  · rw [ensure_array_fields]
    constructor
    · rcases hms : cfg.mcpServers with _ | v
      · simp [hasShape, emptyColl, arrEntries]
      · cases v <;> simp [hasShape, emptyColl, arrEntries]
    · rcases hms : cfg.mcpServersDisabled with _ | v
      · simp [hasShape, emptyColl, arrEntries]
      · cases v <;> simp [hasShape, emptyColl, arrEntries]

theorem hasShape_performEnable (cfg : Config) (item : Item)
    (schema : Schema) :
    hasShape (performEnable cfg item schema).1.mcpServers schema.shape = true
    ∧ hasShape (performEnable cfg item schema).1.mcpServersDisabled
        schema.shape = true := by
  cases hsh : schema.shape
  · by_cases hc : item.container = .disabled <;>
      by_cases ht : (hasField item.defn "enabled"
          && enabledIsFalse item.defn) = true <;>
      constructor <;>
      simp [performEnable, hsh, hc, ht, ensure_object_fields, writeEntryObj,
        hasShape, objEntries_some_obj]
  · cases hcont : item.container
    · cases hix : item.index <;>
        by_cases ht : (hasField item.defn "enabled"
            && enabledIsFalse item.defn) = true <;>
        constructor <;>
        simp [performEnable, hsh, hcont, ht, hix, ensure_array_fields,
          writeEntryArr, hasShape, arrEntries_some_arr]
    · cases hidx : arrIndexOf (arrEntries cfg.mcpServersDisabled) item.defn <;>
        by_cases ht : (hasField item.defn "enabled"
            && enabledIsFalse item.defn) = true <;>
        constructor <;>
        simp [performEnable, hsh, hcont, ht, hidx, ensure_array_fields,
          writeEntryArr, hasShape, arrEntries_some_arr]

theorem hasShape_performDisable (cfg : Config) (item : Item)
    (schema : Schema) :
    hasShape (performDisable cfg item schema).1.mcpServers schema.shape = true
    ∧ hasShape (performDisable cfg item schema).1.mcpServersDisabled
        schema.shape = true := by
  cases hsh : schema.shape
  · by_cases hm : hasField item.defn "enabled" = true
    · by_cases hf : enabledIsFalse item.defn = true <;>
        cases hcont : item.container <;>
        constructor <;>
        simp [performDisable, hsh, hm, hf, hcont, ensure_object_fields,
          writeEntryObj, hasShape, objEntries_some_obj]
    · by_cases hc : item.container = .active <;>
        constructor <;>
        simp [performDisable, hsh, hm, hc, ensure_object_fields,
          writeEntryObj, hasShape, objEntries_some_obj]
  · by_cases hm : hasField item.defn "enabled" = true
    · by_cases hf : enabledIsFalse item.defn = true <;>
        cases hcont : item.container <;>
        cases hix : item.index <;>
        constructor <;>
        simp [performDisable, hsh, hm, hf, hcont, hix, ensure_array_fields,
          writeEntryArr, hasShape, arrEntries_some_arr]
    · constructor <;>
        simp [performDisable, hsh, hm, ensure_array_fields, hasShape]

/-- C10: every enable or disable call first materializes both top-level
containers for the detected shape — `ensureContainers` keeps a container
that already has the shape and replaces a missing or wrongly-typed one
with an empty collection of that shape, and after any `performEnable` or
`performDisable` (marker-only toggles, no-ops and the failing
array-disable included) both containers hold a collection of the schema's
shape. -/
theorem containers_materialized (cfg : Config) (item : Item)
    (schema : Schema) :
    ((ensureContainers cfg schema.shape).mcpServers
        = (if hasShape cfg.mcpServers schema.shape then cfg.mcpServers
          else some (emptyColl schema.shape)))
    ∧ ((ensureContainers cfg schema.shape).mcpServersDisabled
        = (if hasShape cfg.mcpServersDisabled schema.shape then
            cfg.mcpServersDisabled
          else some (emptyColl schema.shape)))
    ∧ hasShape (performEnable cfg item schema).1.mcpServers schema.shape = true
    ∧ hasShape (performEnable cfg item schema).1.mcpServersDisabled
        schema.shape = true
    ∧ hasShape (performDisable cfg item schema).1.mcpServers
        schema.shape = true
    ∧ hasShape (performDisable cfg item schema).1.mcpServersDisabled
        schema.shape = true :=
  ⟨(ensure_materializes cfg schema.shape).1,
    (ensure_materializes cfg schema.shape).2,
    (hasShape_performEnable cfg item schema).1,
    (hasShape_performEnable cfg item schema).2,
    (hasShape_performDisable cfg item schema).1,
    (hasShape_performDisable cfg item schema).2⟩

end Ccmcp
